import Mathlib

/-!
Verification development for the bitservice repository: shallow embeddings of
the client response processing (bitservice-client), the coordinator
read/write queue actor (bitservice-server rw_queue), the peer request
handlers (bitservice-peer api/v1), the MPC session registries (ws-mpc-net,
tcp-mpc-net) and the framed transport byte counters, together with theorems
about the properties the specification states for them.
-/

namespace Bitservice

/-! ## Client model (bitservice-client/src/lib.rs) -/

/-- Modulus of the BN254 scalar field Fr (ark_bn254 Fr), the field in which
all share arithmetic of the client takes place. -/
def frModulus : Nat :=
  21888242871839275222246405745257275088548364400416034343698204186575808495617

/-- Field of share values, shallow embedding of ark_bn254 Fr. -/
abbrev Fr := ZMod frModulus

/-- Constant NOT_BANNED of bitservice-client (Fr zero). -/
def notBannedConst : Fr := 0

/-- Constant BANNED of bitservice-client (Fr one). -/
def bannedConst : Fr := 1

/-- Client-visible read value. -/
inductive Value where
  | notBanned
  | banned
deriving DecidableEq, Repr

/-- Kinds of client-side failure, following the error vocabulary of the
specification: protocolError for an invalid reconstructed value, proofError
for a SNARK verification failure, remoteError for an HTTP non-success. -/
inductive ClientErr where
  | protocolError
  | proofError
  | remoteError
deriving DecidableEq, Repr

/-- Embedding of the TryFrom implementation converting an Fr element to a
Value in bitservice-client: zero maps to NotBanned, one to Banned, and any
other field element is an invalid-value protocol error. -/
def valueTryFrom (v : Fr) : Except ClientErr Value :=
  if v = notBannedConst then .ok .notBanned
  else if v = bannedConst then .ok .banned
  else .error .protocolError

/-- Replicated rep3 field share carried in the value field of a per-peer read
response: the pair of components (a, b) of Rep3PrimeFieldShare. -/
structure Rep3Share where
  a : Fr
  b : Fr
deriving DecidableEq

/-- Componentwise share addition, the addition Client::read applies to the
three returned value shares before projecting to the a component. -/
def Rep3Share.add (x y : Rep3Share) : Rep3Share :=
  ⟨x.a + y.a, x.b + y.b⟩

/-- Fields of a per-peer read response the client inspects. The SNARK proof is
kept abstract: its verification result enters through an oracle argument of
type Except Unit Bool, the shape of the result of r1cs verify. -/
structure PeerReadResponse where
  value : Rep3Share
  root : Fr
  commitment : Fr
deriving DecidableEq

/-- Outcome of a client operation: a returned value, a returned error of a
given kind, or a rust panic (a failed assert macro). -/
inductive ClientOutcome (α : Type) where
  | ok (v : α)
  | err (e : ClientErr)
  | panicked
deriving DecidableEq

/-- Embedding of one assert step of the clients proof checking, the pattern
assert applied to the question-mark propagation of r1cs verify: a verifier
error is propagated as a returned proof error, a verifier result of false
fails the assert and panics, a verifier result of true continues. -/
def assertVerify {α : Type} (r : Except Unit Bool) (k : ClientOutcome α) :
    ClientOutcome α :=
  match r with
  | .error _ => .err .proofError
  | .ok false => .panicked
  | .ok true => k

/-- Embedding of the response-processing tail of Client::read: reconstruct the
value as the componentwise sum of the three value shares projected to the a
component, check the three proof verifications in order, then convert the
reconstructed field element to a Value. -/
def clientReadFinish (r0 r1 r2 : PeerReadResponse) (v0 v1 v2 : Except Unit Bool) :
    ClientOutcome Value :=
  let value := ((r0.value.add r1.value).add r2.value).a
  assertVerify v0 (assertVerify v1 (assertVerify v2
    (match valueTryFrom value with
     | .ok v => .ok v
     | .error e => .err e)))

/-- Embedding of the response-processing tail of Client::ban: check the three
proof verifications in order and return unit. -/
def clientBanFinish (v0 v1 v2 : Except Unit Bool) : ClientOutcome Unit :=
  assertVerify v0 (assertVerify v1 (assertVerify v2 (.ok ())))

/-- Embedding of the response-processing tail of Client::unban, identical in
structure to the ban tail in the source. -/
def clientUnbanFinish (v0 v1 v2 : Except Unit Bool) : ClientOutcome Unit :=
  assertVerify v0 (assertVerify v1 (assertVerify v2 (.ok ())))

/-- Predicate over the three verification results: the first one that is not a
clean success is a verifier error. -/
def firstFailureIsErr (v0 v1 v2 : Except Unit Bool) : Prop :=
  v0 = .error () ∨
    (v0 = .ok true ∧ v1 = .error ()) ∨
    (v0 = .ok true ∧ v1 = .ok true ∧ v2 = .error ())

/-- Predicate over the three verification results: the first one that is not a
clean success is a verifier result of false. -/
def firstFailureIsFalse (v0 v1 v2 : Except Unit Bool) : Prop :=
  v0 = .ok false ∨
    (v0 = .ok true ∧ v1 = .ok false) ∨
    (v0 = .ok true ∧ v1 = .ok true ∧ v2 = .ok false)

/-! ## Claim C7 -/

/-- Claim C7: on a client read whose three SNARK verifications succeed, the
reconstructed cleartext is the field sum of the three returned per-peer share
components, and the read returns NotBanned when the sum is 0, Banned when the
sum is 1, and fails with the invalid-value protocol error for every other
sum. -/
theorem c7_read_reconstruction (r0 r1 r2 : PeerReadResponse)
    (v0 v1 v2 : Except Unit Bool)
    (h0 : v0 = .ok true) (h1 : v1 = .ok true) (h2 : v2 = .ok true) :
    clientReadFinish r0 r1 r2 v0 v1 v2 =
      (if r0.value.a + r1.value.a + r2.value.a = 0 then .ok .notBanned
       else if r0.value.a + r1.value.a + r2.value.a = 1 then .ok .banned
       else .err .protocolError) := by
  subst h0 h1 h2
  simp only [clientReadFinish, assertVerify]
  by_cases hz : r0.value.a + r1.value.a + r2.value.a = 0
  · simp [valueTryFrom, Rep3Share.add, notBannedConst, bannedConst, hz]
  · by_cases ho : r0.value.a + r1.value.a + r2.value.a = 1
    · have h10 : (1 : Fr) ≠ 0 := by decide
      simp [valueTryFrom, Rep3Share.add, notBannedConst, bannedConst, hz, ho, h10]
    · simp [valueTryFrom, Rep3Share.add, notBannedConst, bannedConst, hz, ho]

/-- Witness for claim C7 at a concrete input whose shares sum to one. -/
theorem c7_witness :
    clientReadFinish ⟨⟨1, 0⟩, 0, 0⟩ ⟨⟨0, 0⟩, 0, 0⟩ ⟨⟨0, 0⟩, 0, 0⟩
      (.ok true) (.ok true) (.ok true) = .ok .banned := by
  rw [c7_read_reconstruction _ _ _ _ _ _ rfl rfl rfl]
  decide

/-! ## Claim C2 -/

/-- Claim C2 counterexample: at a concrete read input whose first SNARK
verification returns false, the client panics on a failed assert macro
instead of returning a ProofError-kind error to its caller. -/
theorem c2_counterexample :
    clientReadFinish ⟨⟨0, 0⟩, 0, 0⟩ ⟨⟨0, 0⟩, 0, 0⟩ ⟨⟨0, 0⟩, 0, 0⟩
        (.ok false) (.ok true) (.ok true) = .panicked ∧
    clientReadFinish ⟨⟨0, 0⟩, 0, 0⟩ ⟨⟨0, 0⟩, 0, 0⟩ ⟨⟨0, 0⟩, 0, 0⟩
        (.ok false) (.ok true) (.ok true) ≠ .err .proofError := by
  constructor
  · rfl
  · decide

/-- Claim C2 amended: for read, ban and unban, when some per-peer verification
is not a clean success the operation never succeeds; when the first failing
verification is a verifier error, the operation returns a ProofError-kind
error; when the first failing verification returns false, the client panics
on a failed assert macro rather than returning an error. -/
theorem c2_amended_verification (r0 r1 r2 : PeerReadResponse)
    (v0 v1 v2 : Except Unit Bool) :
    (firstFailureIsErr v0 v1 v2 →
      clientReadFinish r0 r1 r2 v0 v1 v2 = .err .proofError ∧
      clientBanFinish v0 v1 v2 = .err .proofError ∧
      clientUnbanFinish v0 v1 v2 = .err .proofError) ∧
    (firstFailureIsFalse v0 v1 v2 →
      clientReadFinish r0 r1 r2 v0 v1 v2 = .panicked ∧
      clientBanFinish v0 v1 v2 = .panicked ∧
      clientUnbanFinish v0 v1 v2 = .panicked) := by
  rcases v0 with u0 | b0
  · simp [firstFailureIsErr, firstFailureIsFalse, clientReadFinish,
      clientBanFinish, clientUnbanFinish, assertVerify]
  · rcases v1 with u1 | b1
    · cases b0 <;>
        simp [firstFailureIsErr, firstFailureIsFalse, clientReadFinish,
          clientBanFinish, clientUnbanFinish, assertVerify]
    · rcases v2 with u2 | b2
      · cases b0 <;> cases b1 <;>
          simp [firstFailureIsErr, firstFailureIsFalse, clientReadFinish,
            clientBanFinish, clientUnbanFinish, assertVerify]
      · cases b0 <;> cases b1 <;> cases b2 <;>
          simp [firstFailureIsErr, firstFailureIsFalse, clientReadFinish,
            clientBanFinish, clientUnbanFinish, assertVerify]

/-- Witness for the amended claim C2 at a concrete input whose second
verification is a verifier error. -/
theorem c2_amended_witness :
    clientBanFinish (.ok true) (.error ()) (.ok true) = .err .proofError :=
  ((c2_amended_verification ⟨⟨0, 0⟩, 0, 0⟩ ⟨⟨0, 0⟩, 0, 0⟩ ⟨⟨0, 0⟩, 0, 0⟩
      (.ok true) (.error ()) (.ok true)).1 (Or.inr (Or.inl ⟨rfl, rfl⟩))).2.1

/-! ## Coordinator queue actor model (bitservice-server/src/rw_queue.rs)

The per relying-party actor loop of RpRwQueue::new is embedded as a step
function over the actor state. Asynchrony of the spawned read tasks is
captured by a completion rank the environment assigns to each read: among
the tasks in the JoinSet, the one with the smallest rank is the one that
completes first, which is the task a join_next call resolves with. -/

/-- Message handled by the queue actor (RpRwQueueMsg). A read carries the
completion rank of the task the actor will spawn for it; a write carries the
result of its fan-out to the three peers and the result a prune fan-out
would have, should this write trigger one. -/
inductive QMsg where
  | read (rank : Nat)
  | write (fanoutOk : Bool) (pruneOk : Bool)
deriving DecidableEq, Repr

/-- Observable actions of the queue actor, tagged with the channel position
of the message they belong to. The joinRead action is the actor awaiting
that read task to completion; respondWrite is the send on the one-shot
result channel of the write. -/
inductive QEvent where
  | spawnRead (i : Nat)
  | joinRead (i : Nat)
  | writeStart (i : Nat)
  | respondWrite (i : Nat) (ok : Bool)
  | pruneFanout (ok : Bool)
deriving DecidableEq, Repr

/-- Actor state: the in-flight read tasks as (message position, completion
rank) pairs in spawn order (the JoinSet), and the running prune counter. -/
structure QState where
  inflight : List (Nat × Nat)
  pruneCounter : Nat
deriving DecidableEq, Repr

/-- Removes from the in-flight list the task that completes first, the one of
minimal completion rank (the earliest-spawned such task on ties); this
embeds JoinSet join_next, which resolves with whichever task of the set
completes next, and returns none exactly on the empty set. -/
def removeMinRank : List (Nat × Nat) → Option ((Nat × Nat) × List (Nat × Nat))
  | [] => none
  | x :: xs =>
    match removeMinRank xs with
    | none => some (x, [])
    | some (m, rest) => if x.2 ≤ m.2 then some (x, xs) else some (m, x :: rest)

/-- One dispatch step of the actor loop on the message at channel position i.
On a read: when the JoinSet is at max_num_read_tasks capacity, one task is
awaited via join_next to free a slot, then the new task is spawned. On a
write: the whole JoinSet is drained via join_all, the write is fanned out
and answered, then the prune counter is incremented and, at
prune_write_interval, one prune is fanned out and the counter reset. -/
def qstep (maxTasks interval : Nat) (i : Nat) (m : QMsg) (s : QState) :
    QState × List QEvent :=
  match m with
  | .read rank =>
    let joined :=
      if s.inflight.length = maxTasks then
        match removeMinRank s.inflight with
        | none => (s.inflight, ([] : List QEvent))
        | some (t, rest) => (rest, [QEvent.joinRead t.1])
      else (s.inflight, [])
    (⟨joined.1 ++ [(i, rank)], s.pruneCounter⟩, joined.2 ++ [QEvent.spawnRead i])
  | .write fanoutOk pruneOk =>
    let drainEvs := s.inflight.map (fun t => QEvent.joinRead t.1)
    if s.pruneCounter + 1 = interval then
      (⟨[], 0⟩, drainEvs ++
        [QEvent.writeStart i, QEvent.respondWrite i fanoutOk,
         QEvent.pruneFanout pruneOk])
    else
      (⟨[], s.pruneCounter + 1⟩, drainEvs ++
        [QEvent.writeStart i, QEvent.respondWrite i fanoutOk])

/-- Runs the queue actor over a list of messages, the message heading the
list being at channel position i. -/
def runQueue (maxTasks interval : Nat) : Nat → QState → List QMsg → QState × List QEvent
  | _, s, [] => (s, [])
  | i, s, m :: ms =>
    ((runQueue maxTasks interval (i + 1) (qstep maxTasks interval i m s).1 ms).1,
      (qstep maxTasks interval i m s).2 ++
        (runQueue maxTasks interval (i + 1) (qstep maxTasks interval i m s).1 ms).2)

/-- Event e1 occurs strictly before event e2 in the trace l. -/
def Before (l : List QEvent) (e1 e2 : QEvent) : Prop :=
  ∃ l1 l2 l3, l = l1 ++ e1 :: l2 ++ e2 :: l3

/-- Number of prune fan-outs in a trace. -/
def countPrunes (l : List QEvent) : Nat :=
  l.countP fun e => match e with | .pruneFanout _ => true | _ => false

/-- Number of successful write responses in a trace. -/
def countOkWrites (l : List QEvent) : Nat :=
  l.countP fun e => match e with | .respondWrite _ true => true | _ => false

/-- Number of write messages in a message list. -/
def countWriteMsgs (ms : List QMsg) : Nat :=
  ms.countP fun m => match m with | .write _ _ => true | _ => false

theorem removeMinRank_eq_none (l : List (Nat × Nat)) :
    removeMinRank l = none ↔ l = [] := by
  cases l with
  | nil => simp [removeMinRank]
  | cons x xs =>
    simp only [removeMinRank]
    cases removeMinRank xs with
    | none => simp
    | some p =>
      obtain ⟨m, rest⟩ := p
      by_cases h : x.2 ≤ m.2 <;> simp [h]

theorem removeMinRank_spec (l : List (Nat × Nat)) :
    ∀ t rest, removeMinRank l = some (t, rest) →
      t ∈ l ∧ (∀ x ∈ l, t.2 ≤ x.2) ∧ (∀ x ∈ l, x = t ∨ x ∈ rest) := by
  induction l with
  | nil => intro t rest h; simp [removeMinRank] at h
  | cons x xs ih =>
    intro t rest h
    simp only [removeMinRank] at h
    cases hr : removeMinRank xs with
    | none =>
      rw [hr] at h
      have hx : xs = [] := (removeMinRank_eq_none xs).mp hr
      simp only [Option.some.injEq, Prod.mk.injEq] at h
      obtain ⟨rfl, rfl⟩ := h
      subst hx
      simp
    | some p =>
      obtain ⟨m, mrest⟩ := p
      rw [hr] at h
      dsimp only at h
      obtain ⟨hm, hmin, hsplit⟩ := ih m mrest hr
      by_cases hle : x.2 ≤ m.2
      · rw [if_pos hle] at h
        simp only [Option.some.injEq, Prod.mk.injEq] at h
        obtain ⟨rfl, rfl⟩ := h
        refine ⟨List.mem_cons_self _ _, ?_, ?_⟩
        · intro y hy
          rcases List.mem_cons.mp hy with rfl | hy2
          · exact le_refl _
          · exact le_trans hle (hmin y hy2)
        · intro y hy
          rcases List.mem_cons.mp hy with rfl | hy2
          · exact Or.inl rfl
          · exact Or.inr hy2
      · rw [if_neg hle] at h
        simp only [Option.some.injEq, Prod.mk.injEq] at h
        obtain ⟨rfl, rfl⟩ := h
        refine ⟨List.mem_cons_of_mem _ hm, ?_, ?_⟩
        · intro y hy
          rcases List.mem_cons.mp hy with rfl | hy2
          · exact le_of_not_le hle
          · exact hmin y hy2
        · intro y hy
          rcases List.mem_cons.mp hy with rfl | hy2
          · exact Or.inr (List.mem_cons_self _ _)
          · rcases hsplit y hy2 with rfl | hin
            · exact Or.inl rfl
            · exact Or.inr (List.mem_cons_of_mem _ hin)

theorem qstep_write_shape (maxTasks interval i : Nat) (ok pok : Bool) (s : QState) :
    qstep maxTasks interval i (.write ok pok) s =
      (⟨[], if s.pruneCounter + 1 = interval then 0 else s.pruneCounter + 1⟩,
        s.inflight.map (fun t => QEvent.joinRead t.1) ++
          [QEvent.writeStart i, QEvent.respondWrite i ok] ++
          (if s.pruneCounter + 1 = interval then [QEvent.pruneFanout pok] else [])) := by
  by_cases h : s.pruneCounter + 1 = interval <;> simp [qstep, h]

theorem qstep_read_counter (maxTasks interval i rank : Nat) (s : QState) :
    (qstep maxTasks interval i (.read rank) s).1.pruneCounter = s.pruneCounter :=
  rfl

theorem qstep_read_no_prune (maxTasks interval i rank : Nat) (s : QState) :
    countPrunes (qstep maxTasks interval i (.read rank) s).2 = 0 := by
  simp only [qstep]
  by_cases h : s.inflight.length = maxTasks
  · simp only [if_pos h]
    cases hr : removeMinRank s.inflight with
    | none => simp [countPrunes]
    | some p =>
      obtain ⟨t, rest⟩ := p
      simp [countPrunes, List.countP_cons, List.countP_append]
  · simp [if_neg h, countPrunes]

theorem countPrunes_append (l1 l2 : List QEvent) :
    countPrunes (l1 ++ l2) = countPrunes l1 + countPrunes l2 :=
  List.countP_append _ _ _

theorem countPrunes_drain (l : List (Nat × Nat)) :
    countPrunes (l.map fun t => QEvent.joinRead t.1) = 0 := by
  induction l with
  | nil => rfl
  | cons x xs ih => simp [countPrunes, List.countP_cons, ih]

/-- Event e1 occurs before e2 whenever e1 is in a front segment and e2 in a
back segment. -/
theorem before_of_append_mem {l1 l2 : List QEvent} {e1 e2 : QEvent}
    (h1 : e1 ∈ l1) (h2 : e2 ∈ l2) : Before (l1 ++ l2) e1 e2 := by
  obtain ⟨a1, a2, rfl⟩ := List.append_of_mem h1
  obtain ⟨b1, b2, rfl⟩ := List.append_of_mem h2
  exact ⟨a1, a2 ++ b1, b2, by simp⟩

/-- A before relation inside a trailing segment survives a prefix. -/
theorem before_append_left {l0 l : List QEvent} {e1 e2 : QEvent}
    (h : Before l e1 e2) : Before (l0 ++ l) e1 e2 := by
  obtain ⟨l1, l2, l3, rfl⟩ := h
  exact ⟨l0 ++ l1, l2, l3, by simp⟩

theorem runQueue_append (maxTasks interval : Nat) (xs : List QMsg) :
    ∀ (ys : List QMsg) (i : Nat) (s : QState),
      runQueue maxTasks interval i s (xs ++ ys) =
        ((runQueue maxTasks interval (i + xs.length)
            (runQueue maxTasks interval i s xs).1 ys).1,
          (runQueue maxTasks interval i s xs).2 ++
            (runQueue maxTasks interval (i + xs.length)
              (runQueue maxTasks interval i s xs).1 ys).2) := by
  induction xs with
  | nil => intro ys i s; simp [runQueue]
  | cons m ms ih =>
    intro ys i s
    simp only [List.cons_append, runQueue, List.length_cons, List.append_eq]
    rw [ih ys (i + 1) ((qstep maxTasks interval i m s).1)]
    have hidx : i + 1 + ms.length = i + (ms.length + 1) := by omega
    rw [hidx]
    simp [List.append_assoc]

/-- Every write message in the channel gets its one-shot response, carrying
exactly the result of its own fan-out, into the trace. -/
theorem runQueue_respond_mem (maxTasks interval : Nat) :
    ∀ (msgs : List QMsg) (i : Nat) (s : QState) (j : Nat) (ok pok : Bool),
      msgs[j]? = some (.write ok pok) →
      QEvent.respondWrite (i + j) ok ∈ (runQueue maxTasks interval i s msgs).2 := by
  intro msgs
  induction msgs with
  | nil => intro i s j ok pok h; simp at h
  | cons m ms ih =>
    intro i s j ok pok h
    cases j with
    | zero =>
      rw [List.getElem?_cons_zero, Option.some.injEq] at h
      subst h
      simp only [runQueue]
      rw [Nat.add_zero]
      refine List.mem_append.mpr (Or.inl ?_)
      rw [qstep_write_shape]
      simp
    | succ j2 =>
      rw [List.getElem?_cons_succ] at h
      have hm := ih (i + 1) (qstep maxTasks interval i m s).1 j2 ok pok h
      simp only [runQueue]
      refine List.mem_append.mpr (Or.inr ?_)
      have hidx : i + 1 + j2 = i + (j2 + 1) := by omega
      rw [hidx] at hm
      exact hm

/-- A task in flight at the start of a run is either awaited to completion
during the run or still in flight at its end. -/
theorem runQueue_inflight_tracked (maxTasks interval : Nat) :
    ∀ (msgs : List QMsg) (i : Nat) (s : QState) (t : Nat × Nat),
      t ∈ s.inflight →
      QEvent.joinRead t.1 ∈ (runQueue maxTasks interval i s msgs).2 ∨
        t ∈ (runQueue maxTasks interval i s msgs).1.inflight := by
  intro msgs
  induction msgs with
  | nil => intro i s t ht; right; simpa [runQueue]
  | cons m ms ih =>
    intro i s t ht
    simp only [runQueue]
    cases m with
    | write ok pok =>
      left
      refine List.mem_append.mpr (Or.inl ?_)
      rw [qstep_write_shape]
      refine List.mem_append.mpr (Or.inl (List.mem_append.mpr (Or.inl ?_)))
      exact List.mem_map.mpr ⟨t, ht, rfl⟩
    | read rank =>
      by_cases hcap : s.inflight.length = maxTasks
      · cases hr : removeMinRank s.inflight with
        | none =>
          rw [removeMinRank_eq_none] at hr
          rw [hr] at ht
          simp at ht
        | some p =>
          obtain ⟨t0, rest⟩ := p
          obtain ⟨_, _, hsplit⟩ := removeMinRank_spec s.inflight t0 rest hr
          rcases hsplit t ht with rfl | hrest
          · left
            refine List.mem_append.mpr (Or.inl ?_)
            simp [qstep, hcap, hr]
          · have hkeep : t ∈ (qstep maxTasks interval i (.read rank) s).1.inflight := by
              simp only [qstep, if_pos hcap, hr]
              exact List.mem_append.mpr (Or.inl hrest)
            rcases ih (i + 1) _ t hkeep with h1 | h2
            · exact Or.inl (List.mem_append.mpr (Or.inr h1))
            · exact Or.inr h2
      · have hkeep : t ∈ (qstep maxTasks interval i (.read rank) s).1.inflight := by
          simp only [qstep, if_neg hcap]
          exact List.mem_append.mpr (Or.inl ht)
        rcases ih (i + 1) _ t hkeep with h1 | h2
        · exact Or.inl (List.mem_append.mpr (Or.inr h1))
        · exact Or.inr h2

/-- A read message in the channel is either awaited to completion during the
run or its task is still in flight at the end of the run. -/
theorem runQueue_read_tracked (maxTasks interval : Nat) :
    ∀ (msgs : List QMsg) (i : Nat) (s : QState) (k rank : Nat),
      msgs[k]? = some (.read rank) →
      QEvent.joinRead (i + k) ∈ (runQueue maxTasks interval i s msgs).2 ∨
        (i + k, rank) ∈ (runQueue maxTasks interval i s msgs).1.inflight := by
  intro msgs
  induction msgs with
  | nil => intro i s k rank h; simp at h
  | cons m ms ih =>
    intro i s k rank h
    cases k with
    | zero =>
      rw [List.getElem?_cons_zero, Option.some.injEq] at h
      subst h
      have hin : (i, rank) ∈ (qstep maxTasks interval i (.read rank) s).1.inflight := by
        simp only [qstep]
        exact List.mem_append.mpr (Or.inr (List.mem_singleton.mpr rfl))
      rw [Nat.add_zero]
      simp only [runQueue]
      rcases runQueue_inflight_tracked maxTasks interval ms (i + 1) _ (i, rank) hin
        with h1 | h2
      · exact Or.inl (List.mem_append.mpr (Or.inr h1))
      · exact Or.inr h2
    | succ k2 =>
      rw [List.getElem?_cons_succ] at h
      have hm := ih (i + 1) (qstep maxTasks interval i m s).1 k2 rank h
      have hidx : i + 1 + k2 = i + (k2 + 1) := by omega
      rw [hidx] at hm
      simp only [runQueue]
      rcases hm with h1 | h2
      · exact Or.inl (List.mem_append.mpr (Or.inr h1))
      · exact Or.inr h2

/-- Prune counting: starting below the interval, a run fans out one prune per
interval of processed writes and ends with the remainder in the counter. -/
theorem runQueue_prune_count (maxTasks interval : Nat) (hpos : 0 < interval) :
    ∀ (msgs : List QMsg) (i : Nat) (s : QState), s.pruneCounter < interval →
      countPrunes (runQueue maxTasks interval i s msgs).2 =
        (s.pruneCounter + countWriteMsgs msgs) / interval ∧
      (runQueue maxTasks interval i s msgs).1.pruneCounter =
        (s.pruneCounter + countWriteMsgs msgs) % interval := by
  intro msgs
  induction msgs with
  | nil =>
    intro i s hc
    simp [runQueue, countPrunes, countWriteMsgs, Nat.div_eq_of_lt hc,
      Nat.mod_eq_of_lt hc]
  | cons m ms ih =>
    intro i s hc
    simp only [runQueue]
    cases m with
    | read rank =>
      obtain ⟨h1, h2⟩ := ih (i + 1) (qstep maxTasks interval i (.read rank) s).1
        (by rw [qstep_read_counter]; exact hc)
      rw [qstep_read_counter] at h1 h2
      have hw : countWriteMsgs (QMsg.read rank :: ms) = countWriteMsgs ms := by
        simp [countWriteMsgs, List.countP_cons]
      constructor
      · rw [countPrunes_append, qstep_read_no_prune, hw]
        simpa using h1
      · rw [hw]
        exact h2
    | write ok pok =>
      have hw : countWriteMsgs (QMsg.write ok pok :: ms) = countWriteMsgs ms + 1 := by
        simp [countWriteMsgs, List.countP_cons]
      have hstep := qstep_write_shape maxTasks interval i ok pok s
      by_cases hit : s.pruneCounter + 1 = interval
      · simp only [if_pos hit] at hstep
        rw [hstep, hw]
        dsimp only
        obtain ⟨h1, h2⟩ := ih (i + 1) ⟨[], 0⟩ hpos
        dsimp only at h1 h2
        rw [Nat.zero_add] at h1 h2
        have hsum : s.pruneCounter + (countWriteMsgs ms + 1) =
            countWriteMsgs ms + interval := by omega
        have hc1 : countPrunes (List.map (fun t => QEvent.joinRead t.1) s.inflight ++
            [QEvent.writeStart i, QEvent.respondWrite i ok] ++
            [QEvent.pruneFanout pok]) = 1 := by
          rw [countPrunes_append, countPrunes_append, countPrunes_drain]
          simp [countPrunes, List.countP_cons]
        constructor
        · rw [countPrunes_append, hc1, h1, hsum, Nat.add_div_right _ hpos]
          omega
        · rw [h2, hsum, Nat.add_mod_right]
      · simp only [if_neg hit] at hstep
        rw [hstep, hw]
        dsimp only
        obtain ⟨h1, h2⟩ := ih (i + 1) ⟨[], s.pruneCounter + 1⟩
          (by dsimp only; omega)
        dsimp only at h1 h2
        have hsum : s.pruneCounter + 1 + countWriteMsgs ms =
            s.pruneCounter + (countWriteMsgs ms + 1) := by omega
        have hc0 : countPrunes (List.map (fun t => QEvent.joinRead t.1) s.inflight ++
            [QEvent.writeStart i, QEvent.respondWrite i ok] ++ []) = 0 := by
          rw [countPrunes_append, countPrunes_append, countPrunes_drain]
          simp [countPrunes, List.countP_cons]
        constructor
        · rw [countPrunes_append, hc0, h1, hsum]
          omega
        · rw [h2, hsum]

/-! ## Claim C5 -/

/-- Claim C5 counterexample: with max_num_read_tasks = 2, three reads whose
spawned tasks complete in the order task 1, task 0, task 2 make the actor
free the slot for the third read by awaiting task 1, not the oldest in-flight
task 0, which is still in flight after the spawn. -/
theorem c5_counterexample :
    (runQueue 2 10 0 ⟨[], 0⟩ [.read 5, .read 1, .read 9]).2 =
      [.spawnRead 0, .spawnRead 1, .joinRead 1, .spawnRead 2] ∧
    QEvent.joinRead 0 ∉ (runQueue 2 10 0 ⟨[], 0⟩ [.read 5, .read 1, .read 9]).2 ∧
    (0, 5) ∈ (runQueue 2 10 0 ⟨[], 0⟩ [.read 5, .read 1, .read 9]).1.inflight := by
  decide

/-- Claim C5 amended: when a read is dequeued while the in-flight set holds
exactly max_num_read_tasks tasks, the actor awaits completion of one
in-flight task, namely the one that completes first (minimal completion
rank), and only then spawns the new read task. -/
theorem c5_amended_join_first_completing (maxTasks interval i rank : Nat)
    (s : QState) (t : Nat × Nat) (rest : List (Nat × Nat))
    (hcap : s.inflight.length = maxTasks)
    (hjn : removeMinRank s.inflight = some (t, rest)) :
    qstep maxTasks interval i (.read rank) s =
      (⟨rest ++ [(i, rank)], s.pruneCounter⟩,
        [QEvent.joinRead t.1, QEvent.spawnRead i]) ∧
    t ∈ s.inflight ∧ (∀ x ∈ s.inflight, t.2 ≤ x.2) := by
  obtain ⟨hm, hmin, _⟩ := removeMinRank_spec s.inflight t rest hjn
  refine ⟨?_, hm, hmin⟩
  simp [qstep, hcap, hjn]

/-- Witness for the amended claim C5 at a concrete in-flight set of two tasks
whose younger member completes first. -/
theorem c5_amended_witness :
    qstep 2 10 2 (.read 9) ⟨[(0, 5), (1, 1)], 0⟩ =
      (⟨[(0, 5), (2, 9)], 0⟩, [QEvent.joinRead 1, QEvent.spawnRead 2]) ∧
    (1, 1) ∈ ([(0, 5), (1, 1)] : List (Nat × Nat)) ∧
    (∀ x ∈ ([(0, 5), (1, 1)] : List (Nat × Nat)), 1 ≤ x.2) :=
  c5_amended_join_first_completing 2 10 2 9 ⟨[(0, 5), (1, 1)], 0⟩ (1, 1)
    [(0, 5)] rfl rfl

/-! ## Claim C3, counterexample part -/

/-- Claim C3 counterexample: with prune_write_interval = 1, a write whose
fan-out fails followed by a write whose fan-out succeeds yield a trace with
exactly one successful write but two prune fan-outs, because the actor
increments the prune counter after every processed write, failed fan-outs
included. -/
theorem c3_counterexample :
    countOkWrites
        (runQueue 4096 1 0 ⟨[], 0⟩ [.write false true, .write true true]).2 = 1 ∧
    countPrunes
        (runQueue 4096 1 0 ⟨[], 0⟩ [.write false true, .write true true]).2 = 2 := by
  decide

theorem spawnRead_mem_qstep (maxTasks interval i rank : Nat) (s : QState) :
    QEvent.spawnRead i ∈ (qstep maxTasks interval i (.read rank) s).2 := by
  simp only [qstep]
  exact List.mem_append_right _ (List.mem_singleton.mpr rfl)

/-! ## Claim C3, amended part -/

/-- Claim C3 amended: for every relying party, after exactly
prune_write_interval processed writes, with failed fan-outs counted exactly
like successful ones, the queue actor has issued exactly one prune fan-out
and reset the counter to zero. The actor drops the result of a prune
fan-out: the one-shot response of each write carries exactly the result of
its own fan-out, and the write step emits the response before any prune it
triggers, so a failed prune is never surfaced to the client and never fails
the triggering write. -/
theorem c3_amended_prune_periodicity (maxTasks interval : Nat)
    (hpos : 0 < interval) (msgs : List QMsg)
    (hn : countWriteMsgs msgs = interval) :
    countPrunes (runQueue maxTasks interval 0 ⟨[], 0⟩ msgs).2 = 1 ∧
    (runQueue maxTasks interval 0 ⟨[], 0⟩ msgs).1.pruneCounter = 0 ∧
    (∀ (j : Nat) (ok pok : Bool), msgs[j]? = some (.write ok pok) →
      QEvent.respondWrite j ok ∈ (runQueue maxTasks interval 0 ⟨[], 0⟩ msgs).2) ∧
    (∀ (i2 : Nat) (ok pok : Bool) (s : QState),
      (qstep maxTasks interval i2 (.write ok pok) s).2 =
        s.inflight.map (fun t => QEvent.joinRead t.1) ++
          [QEvent.writeStart i2, QEvent.respondWrite i2 ok] ++
          (if s.pruneCounter + 1 = interval then [QEvent.pruneFanout pok] else [])) := by
  obtain ⟨h1, h2⟩ := runQueue_prune_count maxTasks interval hpos msgs 0 ⟨[], 0⟩ hpos
  dsimp only at h1 h2
  rw [Nat.zero_add, hn, Nat.div_self hpos] at h1
  rw [Nat.zero_add, hn, Nat.mod_self] at h2
  refine ⟨h1, h2, ?_, ?_⟩
  · intro j ok pok h
    have hm := runQueue_respond_mem maxTasks interval msgs 0 ⟨[], 0⟩ j ok pok h
    rwa [Nat.zero_add] at hm
  · intro i2 ok pok s
    rw [qstep_write_shape]

/-- Witness for the amended claim C3: interval two, one successful then one
failed write, giving one prune, a reset counter, and the failed write
answered with its own fan-out result. -/
theorem c3_amended_witness :
    countPrunes
        (runQueue 1 2 0 ⟨[], 0⟩ [.write true true, .write false true]).2 = 1 ∧
    (runQueue 1 2 0 ⟨[], 0⟩ [.write true true, .write false true]).1.pruneCounter = 0 ∧
    QEvent.respondWrite 1 false ∈
      (runQueue 1 2 0 ⟨[], 0⟩ [.write true true, .write false true]).2 :=
  have h := c3_amended_prune_periodicity 1 2 (by decide)
    [.write true true, .write false true] (by decide)
  ⟨h.1, h.2.1, h.2.2.1 1 false true rfl⟩

/-! ## Claim C4 -/

/-- Claim C4: messages of one relying-party queue are processed strictly in
channel arrival order. When the actor dequeues a write it drains the whole
in-flight set before fanning out the write, so every read enqueued before a
write is awaited to completion before the write is dispatched, and a read
enqueued after a write is not even spawned before the write has completed
and its response has been sent. -/
theorem c4_queue_order (maxTasks interval a b : Nat) (msgs : List QMsg)
    (rank : Nat) (ok pok : Bool) :
    (a < b → msgs[a]? = some (.read rank) → msgs[b]? = some (.write ok pok) →
      Before (runQueue maxTasks interval 0 ⟨[], 0⟩ msgs).2
        (.joinRead a) (.writeStart b)) ∧
    (b < a → msgs[b]? = some (.write ok pok) → msgs[a]? = some (.read rank) →
      Before (runQueue maxTasks interval 0 ⟨[], 0⟩ msgs).2
        (.respondWrite b ok) (.spawnRead a)) := by
  constructor
  · intro hab hra hwb
    obtain ⟨hb, hvb⟩ := List.getElem?_eq_some_iff.mp hwb
    have hdrop : msgs.drop b = QMsg.write ok pok :: msgs.drop (b + 1) := by
      rw [List.drop_eq_getElem_cons hb, hvb]
    have hsplit : msgs = msgs.take b ++ (QMsg.write ok pok :: msgs.drop (b + 1)) := by
      conv_lhs => rw [← List.take_append_drop b msgs]
      rw [hdrop]
    have hlen : (msgs.take b).length = b := by
      rw [List.length_take]; omega
    rw [hsplit, runQueue_append]
    dsimp only
    rw [hlen, Nat.zero_add]
    have htake : (msgs.take b)[a]? = some (QMsg.read rank) := by
      rw [List.getElem?_take, if_pos hab]; exact hra
    have htracked := runQueue_read_tracked maxTasks interval (msgs.take b) 0
      ⟨[], 0⟩ a rank htake
    rw [Nat.zero_add] at htracked
    simp only [runQueue]
    rcases htracked with hjoined | hinflight
    · refine before_of_append_mem hjoined ?_
      refine List.mem_append.mpr (Or.inl ?_)
      rw [qstep_write_shape]
      simp
    · rw [qstep_write_shape]
      dsimp only
      simp only [List.append_assoc, List.cons_append, List.nil_append]
      apply before_append_left
      refine before_of_append_mem ?_ ?_
      · exact List.mem_map.mpr ⟨(a, rank), hinflight, rfl⟩
      · exact List.mem_cons_self _ _
  · intro hba hwb hra
    obtain ⟨ha, hva⟩ := List.getElem?_eq_some_iff.mp hra
    have hdrop : msgs.drop a = QMsg.read rank :: msgs.drop (a + 1) := by
      rw [List.drop_eq_getElem_cons ha, hva]
    have hsplit : msgs = msgs.take a ++ (QMsg.read rank :: msgs.drop (a + 1)) := by
      conv_lhs => rw [← List.take_append_drop a msgs]
      rw [hdrop]
    have hlen : (msgs.take a).length = a := by
      rw [List.length_take]; omega
    rw [hsplit, runQueue_append]
    dsimp only
    rw [hlen, Nat.zero_add]
    have htake : (msgs.take a)[b]? = some (QMsg.write ok pok) := by
      rw [List.getElem?_take, if_pos hba]; exact hwb
    have hresp := runQueue_respond_mem maxTasks interval (msgs.take a) 0
      ⟨[], 0⟩ b ok pok htake
    rw [Nat.zero_add] at hresp
    refine before_of_append_mem hresp ?_
    simp only [runQueue]
    exact List.mem_append.mpr (Or.inl (spawnRead_mem_qstep _ _ _ _ _))

/-- Witness for claim C4 at a concrete run of a read, then a write, then a
second read. -/
theorem c4_witness :
    Before (runQueue 4096 10 0 ⟨[], 0⟩ [.read 0, .write true true, .read 1]).2
      (.joinRead 0) (.writeStart 1) ∧
    Before (runQueue 4096 10 0 ⟨[], 0⟩ [.read 0, .write true true, .read 1]).2
      (.respondWrite 1 true) (.spawnRead 2) :=
  ⟨(c4_queue_order 4096 10 0 1 [.read 0, .write true true, .read 1]
      0 true true).1 (by decide) rfl rfl,
    (c4_queue_order 4096 10 2 1 [.read 0, .write true true, .read 1]
      1 true true).2 (by decide) rfl rfl⟩

/-! ## Peer request handler model (bitservice-peer/src/api/v1.rs)

The read, ban, unban and prune handlers drive a black-box oblivious map.
The handlers are embedded over an abstract map state type M: the decode
outcomes of decode_unseal_deser, the outcome of init_ws_mpc_nets, the
oblivious-map operation and the database store outcome enter as arguments,
and each handler returns the new peer state, the trace of its observable
actions and its response. Per the oblivious-map contract of the
specification the operation is atomic: on failure the map is unchanged. -/

/-- Observable actions of a peer request handler. -/
inductive PeerEvent (M : Type) where
  | lockWrite
  | runWriteOp
  | runPruneOp
  | cancelToken
  | persistMap (m : M)
deriving DecidableEq

/-- Peer-side state a handler touches: the in-memory oblivious map and the
snapshot persisted in the single-row map table of the database. -/
structure PeerState (M : Type) where
  map : M
  db : Option M
deriving DecidableEq

/-- Handler response, following the error vocabulary of the specification:
decode failures are bad requests naming the offending field, every other
failure collapses to an internal error. -/
inductive ApiOut (α : Type) where
  | ok (v : α)
  | badRequest (field : String)
  | internalError
deriving DecidableEq

/-- Common body of the ban and unban handlers of api/v1.rs, which are
textually identical up to the oblivious-map operation they invoke
(oblivious_insert_or_update for ban, oblivious_update for unban); the
operation enters as the black-box argument op. In source order: decode the
four envelope fields (key, value, r_key, r_value), initialize the MPC
networks, take the write lock, run the operation on a blocking worker,
cancel the cancellation token, store the map snapshot, respond. An operation
failure propagates before the token is cancelled and before any store. -/
def writeHandler {M R : Type} (dkey dvalue drkey drvalue : Except String Unit)
    (netInit : Except Unit Unit) (op : M → Except Unit (M × R)) (storeOk : Bool)
    (s : PeerState M) : PeerState M × List (PeerEvent M) × ApiOut R :=
  match dkey with
  | .error f => (s, [], .badRequest f)
  | .ok _ =>
    match dvalue with
    | .error f => (s, [], .badRequest f)
    | .ok _ =>
      match drkey with
      | .error f => (s, [], .badRequest f)
      | .ok _ =>
        match drvalue with
        | .error f => (s, [], .badRequest f)
        | .ok _ =>
          match netInit with
          | .error _ => (s, [], .internalError)
          | .ok _ =>
            match op s.map with
            | .error _ => (s, [.lockWrite, .runWriteOp], .internalError)
            | .ok (m2, res) =>
              if storeOk then
                (⟨m2, some m2⟩,
                  [.lockWrite, .runWriteOp, .cancelToken, .persistMap m2],
                  .ok res)
              else
                (⟨m2, s.db⟩,
                  [.lockWrite, .runWriteOp, .cancelToken],
                  .internalError)

/-- Embedding of the prune handler of api/v1.rs as it stands in the source:
it takes the write lock, initializes the MPC networks, does not invoke any
oblivious-map operation (that call is commented out in the source), cancels
the cancellation token, stores the unchanged map, and responds. -/
def pruneHandler {M : Type} (netInit : Except Unit Unit) (storeOk : Bool)
    (s : PeerState M) : PeerState M × List (PeerEvent M) × ApiOut Unit :=
  match netInit with
  | .error _ => (s, [.lockWrite], .internalError)
  | .ok _ =>
    if storeOk then
      (⟨s.map, some s.map⟩,
        [.lockWrite, .cancelToken, .persistMap s.map], .ok ())
    else
      (s, [.lockWrite, .cancelToken], .internalError)

/-! ## Claim C1 -/

/-- Claim C1 divergence: on every prune request, the peer prune handler
never invokes the oblivious-map prune operation, and the snapshot it
persists on its success path is the unchanged input map; only the lock,
network setup, token cancellation and persistence of the claim actually
happen. -/
theorem c1_prune_op_never_runs {M : Type} (netInit : Except Unit Unit)
    (storeOk : Bool) (s : PeerState M) :
    PeerEvent.runPruneOp ∉ (pruneHandler netInit storeOk s).2.1 ∧
    (pruneHandler netInit storeOk s).1.map = s.map ∧
    pruneHandler (Except.ok ()) true s =
      (⟨s.map, some s.map⟩,
        [.lockWrite, .cancelToken, .persistMap s.map], .ok ()) := by
  refine ⟨?_, ?_, by simp [pruneHandler]⟩ <;>
    cases netInit with
    | error u => simp [pruneHandler]
    | ok u => cases storeOk <;> simp [pruneHandler]

/-! ## Claim C6 -/

/-- Claim C6: for every ban or unban handled at a peer with well-formed
envelopes and successfully initialized networks: if the oblivious-map
operation succeeds and the store succeeds, the updated snapshot is persisted
(the persist action precedes the return of the success response in the
trace) and the persisted snapshot equals the new map; if the operation
fails, the handler returns an error, persists nothing, and leaves both the
in-memory map and the persisted snapshot unchanged. -/
theorem c6_write_persistence {M R : Type}
    (dkey dvalue drkey drvalue : Except String Unit)
    (netInit : Except Unit Unit) (op : M → Except Unit (M × R)) (storeOk : Bool)
    (s : PeerState M)
    (hdk : dkey = .ok ()) (hdv : dvalue = .ok ()) (hrk : drkey = .ok ())
    (hrv : drvalue = .ok ()) (hnet : netInit = .ok ()) :
    (∀ m2 res, op s.map = .ok (m2, res) → storeOk = true →
      writeHandler dkey dvalue drkey drvalue netInit op storeOk s =
        (⟨m2, some m2⟩,
          [.lockWrite, .runWriteOp, .cancelToken, .persistMap m2], .ok res)) ∧
    (∀ e, op s.map = .error e →
      writeHandler dkey dvalue drkey drvalue netInit op storeOk s =
        (s, [.lockWrite, .runWriteOp], .internalError)) := by
  subst hdk hdv hrk hrv hnet
  constructor
  · intro m2 res hop hst
    subst hst
    simp [writeHandler, hop]
  · intro e hop
    simp [writeHandler, hop]

/-- Witness for claim C6 at a concrete map state and operation. -/
theorem c6_witness :
    writeHandler (.ok ()) (.ok ()) (.ok ()) (.ok ()) (.ok ())
        (fun m => Except.ok (m + 1, 7) : Nat → Except Unit (Nat × Nat)) true
        ⟨0, none⟩ =
      (⟨1, some 1⟩,
        [.lockWrite, .runWriteOp, .cancelToken, .persistMap 1], .ok 7) :=
  (c6_write_persistence (.ok ()) (.ok ()) (.ok ()) (.ok ()) (.ok ())
      (fun m => Except.ok (m + 1, 7) : Nat → Except Unit (Nat × Nat)) true
      ⟨0, none⟩ rfl rfl rfl rfl rfl).1 1 7 rfl rfl

/-! ## Session registry model (ws-mpc-net/src/lib.rs, tcp-mpc-net/src/lib.rs)

WsSessions and TcpSessions carry identical registry logic over different
stream types; the model uses numeric stream handles. Both get and insert
first remove the binding of the session id from the table and then inspect
it. A pending get that has installed a Waiter is represented by a waiter
identifier; the resolved list records how each waiter one-shot ended:
some stream when the sender fired, none when the sender was dropped (the
await of the pending get then fails with a closed-channel error). -/

/-- Table slot: a parked stream or a parked waiter. -/
inductive Slot where
  | ready (stream : Nat)
  | waiter (w : Nat)
deriving DecidableEq, Repr

/-- Registry state: the session table, a fresh-waiter counter, and the
record of resolved waiter one-shots. -/
structure RegState where
  table : List (Nat × Slot)
  nextW : Nat
  resolved : List (Nat × Option Nat)
deriving DecidableEq, Repr

/-- First binding of key k in an association list. -/
def alookup {α : Type} : List (Nat × α) → Nat → Option α
  | [], _ => none
  | (k2, v) :: rest, k => if k2 = k then some v else alookup rest k

/-- Removes the first binding of key k from an association list. -/
def aremove {α : Type} : List (Nat × α) → Nat → List (Nat × α)
  | [], _ => []
  | (k2, v) :: rest, k => if k2 = k then rest else (k2, v) :: aremove rest k

/-- Replaces the value of the first binding of key k. -/
def aupdate {α : Type} : List (Nat × α) → Nat → α → List (Nat × α)
  | [], _, _ => []
  | (k2, v) :: rest, k, v2 =>
    if k2 = k then (k2, v2) :: rest else (k2, v) :: aupdate rest k v2

/-- Outcome of a registry get: a stream handed over at once, a duplicate-get
protocol error, or suspension on a fresh waiter one-shot. -/
inductive GetOut where
  | gotReady (stream : Nat)
  | conflict
  | suspended (w : Nat)
deriving DecidableEq, Repr

/-- Outcome of a registry insert: parked as Ready, handed to a pending
waiter, or a duplicate-insert protocol error. -/
inductive InsOut where
  | stored
  | fulfilled (w : Nat)
  | conflict
deriving DecidableEq, Repr

/-- A registry operation. -/
inductive RegOp where
  | get (id : Nat)
  | insert (id : Nat) (stream : Nat)
deriving DecidableEq, Repr

/-- Immediate outcome of a registry operation. -/
inductive RegOut where
  | g (o : GetOut)
  | i (o : InsOut)
deriving DecidableEq, Repr

/-- One registry operation under the table mutex. Get: a Ready slot is
removed and returned; a Waiter slot is removed — dropping its one-shot
sender, recorded as resolved none — and the duplicate-get error returned; an
absent id parks a fresh Waiter and suspends. Insert: a Ready slot is removed
and the duplicate-insert error returned, the offered stream being dropped; a
Waiter slot is removed and its one-shot fired with the stream; an absent id
parks the stream as Ready. -/
def regStep (op : RegOp) (s : RegState) : RegState × RegOut :=
  match op with
  | .get id =>
    match alookup s.table id with
    | some (.ready str) => (⟨aremove s.table id, s.nextW, s.resolved⟩, .g (.gotReady str))
    | some (.waiter w) =>
      (⟨aremove s.table id, s.nextW, (w, none) :: s.resolved⟩, .g .conflict)
    | none =>
      (⟨(id, .waiter s.nextW) :: s.table, s.nextW + 1, s.resolved⟩,
        .g (.suspended s.nextW))
  | .insert id str =>
    match alookup s.table id with
    | some (.ready _) => (⟨aremove s.table id, s.nextW, s.resolved⟩, .i .conflict)
    | some (.waiter w) =>
      (⟨aremove s.table id, s.nextW, (w, some str) :: s.resolved⟩, .i (.fulfilled w))
    | none => (⟨(id, .ready str) :: s.table, s.nextW, s.resolved⟩, .i .stored)

/-- Runs a sequence of registry operations, collecting immediate outcomes. -/
def runReg : RegState → List RegOp → RegState × List RegOut
  | s, [] => (s, [])
  | s, op :: ops =>
    ((runReg (regStep op s).1 ops).1,
      (regStep op s).2 :: (runReg (regStep op s).1 ops).2)

/-- A get succeeded when it got a stream at once, or when it suspended and
its waiter one-shot was eventually resolved with a stream. -/
def getSucceeded (finalResolved : List (Nat × Option Nat)) : RegOut → Bool
  | .g (.gotReady _) => true
  | .g (.suspended w) =>
    match alookup finalResolved w with
    | some (some _) => true
    | _ => false
  | _ => false

/-- An insert succeeded when it parked the stream or fulfilled a waiter. -/
def insSucceeded : RegOut → Bool
  | .i .stored => true
  | .i (.fulfilled _) => true
  | _ => false

theorem alookup_mem {α : Type} (l : List (Nat × α)) (k : Nat) (v : α)
    (h : alookup l k = some v) : (k, v) ∈ l := by
  induction l with
  | nil => simp [alookup] at h
  | cons x xs ih =>
    obtain ⟨k2, v2⟩ := x
    simp only [alookup] at h
    by_cases hk : k2 = k
    · subst hk
      rw [if_pos rfl] at h
      obtain rfl := (Option.some.injEq _ _).mp h
      exact List.mem_cons_self _ _
    · rw [if_neg hk] at h
      exact List.mem_cons_of_mem _ (ih h)

theorem alookup_aremove_self {α : Type} (l : List (Nat × α)) (k : Nat)
    (hnd : (l.map Prod.fst).Nodup) : alookup (aremove l k) k = none := by
  induction l with
  | nil => rfl
  | cons x xs ih =>
    obtain ⟨k2, v⟩ := x
    simp only [List.map_cons, List.nodup_cons] at hnd
    obtain ⟨hk, hxs⟩ := hnd
    by_cases h : k2 = k
    · subst h
      simp only [aremove, if_pos rfl]
      cases hl : alookup xs k2 with
      | none => exact hl
      | some v2 =>
        exact absurd
          (List.mem_map.mpr ⟨(k2, v2), alookup_mem xs k2 v2 hl, rfl⟩) hk
    · simp only [aremove, if_neg h, alookup, if_neg h]
      exact ih hxs

/-! ## Claim C8 -/

/-- Claim C8 counterexample: one session id can host two successful inserts
and two successful gets over the lifetime of the registry: after a matched
insert and get remove the entry, the id is free again and a second insert
and get pair succeeds, with no conflict error returned anywhere. -/
theorem c8_counterexample :
    (runReg ⟨[], 0, []⟩ [.insert 0 10, .get 0, .insert 0 11, .get 0]).2 =
      [.i .stored, .g (.gotReady 10), .i .stored, .g (.gotReady 11)] ∧
    ((runReg ⟨[], 0, []⟩ [.insert 0 10, .get 0, .insert 0 11, .get 0]).2.countP
      insSucceeded) = 2 ∧
    ((runReg ⟨[], 0, []⟩ [.insert 0 10, .get 0, .insert 0 11, .get 0]).2.countP
      (getSucceeded
        (runReg ⟨[], 0, []⟩ [.insert 0 10, .get 0, .insert 0 11, .get 0]).1.resolved)) = 2 := by
  decide

/-- Claim C8 amended: while an entry for a session id is present, the
conflicting duplicate fails: a get finding a pending Waiter returns the
duplicate-get error and an insert finding a Ready entry returns the
duplicate-insert error; neither stores its new value over the prior entry —
the conflicting operation instead removes the prior entry, leaving the table
without a binding for the id. Once a matched rendezvous has removed the
entry, the same session id may be reused and a later get and insert pair can
succeed again. -/
theorem c8_amended_conflicts (s : RegState) (id str : Nat)
    (hnd : (s.table.map Prod.fst).Nodup) :
    (∀ w, alookup s.table id = some (.waiter w) →
      regStep (.get id) s =
        (⟨aremove s.table id, s.nextW, (w, none) :: s.resolved⟩, .g .conflict) ∧
      alookup (regStep (.get id) s).1.table id = none) ∧
    (∀ str0, alookup s.table id = some (.ready str0) →
      regStep (.insert id str) s =
        (⟨aremove s.table id, s.nextW, s.resolved⟩, .i .conflict) ∧
      alookup (regStep (.insert id str) s).1.table id = none) := by
  constructor
  · intro w hw
    refine ⟨by simp [regStep, hw], ?_⟩
    simp only [regStep, hw]
    exact alookup_aremove_self s.table id hnd
  · intro str0 hr
    refine ⟨by simp [regStep, hr], ?_⟩
    simp only [regStep, hr]
    exact alookup_aremove_self s.table id hnd

/-- Witness for the amended claim C8 at concrete one-entry tables. -/
theorem c8_amended_witness :
    (regStep (.get 5) ⟨[(5, .waiter 0)], 1, []⟩ =
      (⟨[], 1, [(0, none)]⟩, .g .conflict) ∧
      alookup (regStep (.get 5) ⟨[(5, .waiter 0)], 1, []⟩).1.table 5 = none) ∧
    (regStep (.insert 7 4) ⟨[(7, .ready 3)], 0, []⟩ =
      (⟨[], 0, []⟩, .i .conflict) ∧
      alookup (regStep (.insert 7 4) ⟨[(7, .ready 3)], 0, []⟩).1.table 7 = none) :=
  ⟨(c8_amended_conflicts ⟨[(5, .waiter 0)], 1, []⟩ 5 4 (by decide)).1 0 rfl,
    (c8_amended_conflicts ⟨[(7, .ready 3)], 0, []⟩ 7 4 (by decide)).2 3 rfl⟩

/-! ## Claim C10 -/

/-- Claim C10: a get on a session id whose slot is a pending Waiter removes
the entry and drops the one-shot sender before returning the duplicate-get
error: the step returns conflict, the table afterwards holds no entry for
the id, and the pending waiter is recorded as resolved closed, so the
first, still-pending get fails with a closed-channel error on its await. -/
theorem c10_double_get_drops_waiter (s : RegState) (id w : Nat)
    (hnd : (s.table.map Prod.fst).Nodup)
    (hw : alookup s.table id = some (.waiter w)) :
    regStep (.get id) s =
      (⟨aremove s.table id, s.nextW, (w, none) :: s.resolved⟩, .g .conflict) ∧
    alookup (regStep (.get id) s).1.table id = none ∧
    alookup (regStep (.get id) s).1.resolved w = some none := by
  refine ⟨by simp [regStep, hw], ?_, ?_⟩
  · simp only [regStep, hw]
    exact alookup_aremove_self s.table id hnd
  · simp [regStep, hw, alookup]

/-- Witness for claim C10: the state reached by a first get on a fresh id,
hit by a second get on the same id. -/
theorem c10_witness :
    regStep (.get 9) ⟨[(9, .waiter 0)], 1, []⟩ =
      (⟨[], 1, [(0, none)]⟩, .g .conflict) ∧
    alookup (regStep (.get 9) ⟨[(9, .waiter 0)], 1, []⟩).1.table 9 = none ∧
    alookup (regStep (.get 9) ⟨[(9, .waiter 0)], 1, []⟩).1.resolved 0 = some none :=
  c10_double_get_drops_waiter ⟨[(9, .waiter 0)], 1, []⟩ 9 0 (by decide) rfl

/-! ## Framed transport byte counters (ws-mpc-net, tcp-mpc-net)

The Network implementations of WebSocketNetwork and TcpNetwork are
textually identical in their send, recv and get_connection_stats logic; one
model covers both. Bytes are abstracted to numeric lists; a send channel
carries a closed flag (the pump dropped its receiver) and the frames
buffered so far; the recv side carries the queue of inbound frames — an
error entry being a frame the pump turned into a transport error — and each
side carries its atomic byte counter. -/

/-- Bounded send channel toward one peer: whether the pump side is gone and
the frames buffered so far. -/
structure SendChan where
  closed : Bool
  buffered : List (List Nat)
deriving DecidableEq, Repr

/-- One transport instance: party id, per-peer send channels with their
sent_bytes counters, and per-peer inbound frame queues with their
recv_bytes counters. -/
structure MpcNetwork where
  id : Nat
  sendCh : List (Nat × (SendChan × Nat))
  recvCh : List (Nat × (List (Except Unit (List Nat)) × Nat))

/-- Embedding of Network::send: an unknown peer id is an out-of-bounds
error; otherwise sent_bytes is increased by the length of the payload first
and the payload is then offered to the pump channel, which fails when the
channel is closed — the counter increase stays either way, as in the
source, where fetch_add precedes blocking_send. -/
def netSend (n : MpcNetwork) (dst : Nat) (data : List Nat) :
    MpcNetwork × Except Unit Unit :=
  match alookup n.sendCh dst with
  | none => (n, .error ())
  | some (ch, cnt) =>
    if ch.closed then
      (⟨n.id, aupdate n.sendCh dst (ch, cnt + data.length), n.recvCh⟩, .error ())
    else
      (⟨n.id,
        aupdate n.sendCh dst (⟨ch.closed, ch.buffered ++ [data]⟩, cnt + data.length),
        n.recvCh⟩, .ok ())

/-- Embedding of Network::recv: an unknown peer id is an out-of-bounds
error; an empty queue means the pump dropped the sender and blocking_recv
returns none; an error frame propagates without touching the counter;
a data frame increases recv_bytes by its length and is returned. -/
def netRecv (n : MpcNetwork) (src : Nat) :
    MpcNetwork × Except Unit (List Nat) :=
  match alookup n.recvCh src with
  | none => (n, .error ())
  | some (queue, cnt) =>
    match queue with
    | [] => (n, .error ())
    | .error _ :: rest =>
      (⟨n.id, n.sendCh, aupdate n.recvCh src (rest, cnt)⟩, .error ())
    | .ok data :: rest =>
      (⟨n.id, n.sendCh, aupdate n.recvCh src (rest, cnt + data.length)⟩, .ok data)

/-- Embedding of Network::get_connection_stats: one entry per send-side
peer, pairing its sent_bytes with the recv_bytes of the same peer. -/
def getConnectionStats (n : MpcNetwork) : List (Nat × (Nat × Nat)) :=
  n.sendCh.map fun p =>
    (p.1, (p.2.2,
      match alookup n.recvCh p.1 with
      | some q => q.2
      | none => 0))

theorem alookup_aupdate_self {α : Type} (l : List (Nat × α)) (k : Nat)
    (v0 v : α) (h : alookup l k = some v0) :
    alookup (aupdate l k v) k = some v := by
  induction l with
  | nil => simp [alookup] at h
  | cons x xs ih =>
    obtain ⟨k2, v2⟩ := x
    simp only [alookup] at h
    by_cases hk : k2 = k
    · subst hk
      simp [aupdate, alookup]
    · rw [if_neg hk] at h
      simp only [aupdate, if_neg hk, alookup, if_neg hk]
      exact ih h

theorem alookup_aupdate_ne {α : Type} (l : List (Nat × α)) (k p : Nat)
    (v : α) (hne : p ≠ k) : alookup (aupdate l k v) p = alookup l p := by
  induction l with
  | nil => rfl
  | cons x xs ih =>
    obtain ⟨k2, v2⟩ := x
    by_cases hk : k2 = k
    · subst hk
      simp only [aupdate, if_pos rfl, alookup]
      rw [if_neg (fun h => hne h.symm), if_neg (fun h => hne h.symm)]
    · simp only [aupdate, if_neg hk, alookup]
      by_cases hp : k2 = p
      · rw [if_pos hp, if_pos hp]
      · rw [if_neg hp, if_neg hp]
        exact ih

/-! ## Claim C9 -/

/-- Claim C9: on a framed transport, a send to a known peer increases that
peer's sent_bytes counter by exactly the byte length of the payload and
touches nothing else; a recv from a known peer whose next inbound frame is
data returns it and increases that peer's recv_bytes counter by exactly its
byte length; and get_connection_stats reports, per send-side peer, exactly
the accumulated sent_bytes and recv_bytes totals. -/
theorem c9_byte_counters (n : MpcNetwork) :
    (∀ (dst : Nat) (data : List Nat) (ch : SendChan) (cnt : Nat),
      alookup n.sendCh dst = some (ch, cnt) →
      (∃ ch2, alookup (netSend n dst data).1.sendCh dst =
        some (ch2, cnt + data.length)) ∧
      (∀ p, p ≠ dst →
        alookup (netSend n dst data).1.sendCh p = alookup n.sendCh p) ∧
      (netSend n dst data).1.recvCh = n.recvCh) ∧
    (∀ (src : Nat) (data : List Nat) (rest : List (Except Unit (List Nat)))
        (cnt : Nat),
      alookup n.recvCh src = some (Except.ok data :: rest, cnt) →
      (netRecv n src).2 = .ok data ∧
      alookup (netRecv n src).1.recvCh src = some (rest, cnt + data.length) ∧
      (∀ p, p ≠ src →
        alookup (netRecv n src).1.recvCh p = alookup n.recvCh p) ∧
      (netRecv n src).1.sendCh = n.sendCh) ∧
    (∀ (p : Nat) (ch : SendChan) (sc : Nat) (q : List (Except Unit (List Nat)))
        (rc : Nat),
      alookup n.sendCh p = some (ch, sc) → alookup n.recvCh p = some (q, rc) →
      (p, (sc, rc)) ∈ getConnectionStats n) := by
  refine ⟨?_, ?_, ?_⟩
  · intro dst data ch cnt hs
    by_cases hcl : ch.closed
    · refine ⟨⟨ch, ?_⟩, ?_, ?_⟩
      · simp only [netSend, hs, if_pos hcl]
        exact alookup_aupdate_self n.sendCh dst _ _ hs
      · intro p hp
        simp only [netSend, hs, if_pos hcl]
        exact alookup_aupdate_ne n.sendCh dst p _ hp
      · simp [netSend, hs, hcl]
    · refine ⟨⟨⟨ch.closed, ch.buffered ++ [data]⟩, ?_⟩, ?_, ?_⟩
      · simp only [netSend, hs, if_neg hcl]
        exact alookup_aupdate_self n.sendCh dst _ _ hs
      · intro p hp
        simp only [netSend, hs, if_neg hcl]
        exact alookup_aupdate_ne n.sendCh dst p _ hp
      · simp [netSend, hs, hcl]
  · intro src data rest cnt hr
    refine ⟨by simp [netRecv, hr], ?_, ?_, by simp [netRecv, hr]⟩
    · simp only [netRecv, hr]
      exact alookup_aupdate_self n.recvCh src _ _ hr
    · intro p hp
      simp only [netRecv, hr]
      exact alookup_aupdate_ne n.recvCh src p _ hp
  · intro p ch sc q rc hs hr
    refine List.mem_map.mpr ⟨(p, (ch, sc)), alookup_mem _ _ _ hs, ?_⟩
    simp [hr]

/-- Witness for claim C9 at a concrete two-peer transport. -/
theorem c9_witness :
    (∃ ch2,
      alookup (netSend ⟨0, [(1, (⟨false, []⟩, 0)), (2, (⟨false, []⟩, 5))],
          [(1, ([Except.ok [7, 8]], 0)), (2, ([], 4))]⟩ 1 [9, 9, 9]).1.sendCh 1 =
        some (ch2, 3)) ∧
    (netRecv ⟨0, [(1, (⟨false, []⟩, 0)), (2, (⟨false, []⟩, 5))],
        [(1, ([Except.ok [7, 8]], 0)), (2, ([], 4))]⟩ 1).2 = .ok [7, 8] ∧
    (1, (0, 0)) ∈ getConnectionStats
      ⟨0, [(1, (⟨false, []⟩, 0)), (2, (⟨false, []⟩, 5))],
        [(1, ([Except.ok [7, 8]], 0)), (2, ([], 4))]⟩ :=
  have h := c9_byte_counters
    ⟨0, [(1, (⟨false, []⟩, 0)), (2, (⟨false, []⟩, 5))],
      [(1, ([Except.ok [7, 8]], 0)), (2, ([], 4))]⟩
  ⟨(h.1 1 [9, 9, 9] ⟨false, []⟩ 0 rfl).1,
    (h.2.1 1 [7, 8] [] 0 rfl).1,
    h.2.2 1 ⟨false, []⟩ 0 [Except.ok [7, 8]] 0 rfl rfl⟩

end Bitservice
